import Mathlib

/-!
Shallow embedding of the Emby/Jellyfin target's tiered reconciliation engine
from `crates/service/src/settings/targets/emby.rs`.

Conventions of the embedding:
* Filesystem paths are modelled as lists of components (`FsPath`); Rust's
  `Path::starts_with` becomes component-list `isPrefixOf`, and the empty
  string becomes `[]`.
* Network effects are parameterized by oracles (`Oracles`): the library
  listing, the one batch `ScanPaths` call, the per-round per-path `ScanPath`
  calls, the per-library item stream and the per-item refresh outcome.
  HTTP-level responses for the two targeted-scan endpoints are modelled as a
  status code plus the result of parsing the body (`ScanHttp`), so that the
  parse-regardless-of-status logic of `targeted_scan` / `targeted_scan_batch`
  is represented faithfully.
* `tokio` concurrency is resolved deterministically: `join_all` preserves
  request order, so a Tier-2 round is a left fold over the remaining events;
  the Tier-3 item producer task is modelled by the `ItemStream` it sends over
  the channel, together with an `errored` flag recording whether the task
  stopped because a page fetch or parse failed.  The consumer in `get_items`
  never inspects the producer's `JoinHandle` result (the source calls
  `handle.abort()` and drops the handle), which the model mirrors by never
  reading `errored`.
* The two `HashMap`s of the source (`succeeded : HashMap<String, bool>` and
  the Tier-1 `result_map`) are modelled as an association list with unique
  keys and as a last-insert-wins lookup function respectively; iteration
  order of `to_find : HashMap<Library, Vec<_>>` is canonicalized to first
  insertion order (the Rust iteration order is unspecified; all statements
  proved below are insensitive to it).
-/

namespace Emby

/-- A filesystem path, as its list of components. -/
abbrev FsPath := List String

/-- `Library/VirtualFolders` record (struct `Library` in the source). -/
structure Library where
  name : String
  locations : List FsPath
  item_id : String
  collection_type : Option String
deriving DecidableEq

/-- An indexed item (struct `Item` in the source). -/
structure Item where
  id : String
  path : Option FsPath
deriving DecidableEq

/-- A change event; `path` is the value of `ev.get_path(&self.rewrite)`
(the path-rewrite collaborator is outside the embedded core, so the event
carries its rewritten path directly). -/
structure ScanEvent where
  id : String
  path : FsPath
deriving DecidableEq

/-- Per-path result of the targeted-scan endpoints
(struct `ScanPathResponse`); the serde defaults make absent fields empty. -/
structure ScanPathResponse where
  item_id : String
  item_name : String
  status : String
  path : FsPath
  message : FsPath
deriving DecidableEq

/-- Body of the batch endpoint's response (struct `ScanPathsResponse`). -/
structure ScanPathsResponse where
  results : List ScanPathResponse
deriving DecidableEq

/-- An HTTP exchange that produced a response: its status code and the
result of `serde_json::from_str` on the body text. -/
structure ScanHttp (α : Type) where
  status : Nat
  parsed : Option α

/-- Whether an HTTP status code is a success code. -/
def is2xx (s : Nat) : Bool := decide (200 ≤ s) && decide (s < 300)

/-- `Emby::targeted_scan`: `none` models a transport failure of `send()`;
otherwise the body is parsed even for non-2xx statuses, and only an
unparseable body is an error. -/
def targeted_scan (transport : Option (ScanHttp ScanPathResponse)) :
    Except String ScanPathResponse :=
  match transport with
  | none => .error ("send failed")
  | some rep =>
    match rep.parsed with
    | some result => .ok result
    | none => .error ("ScanPath failed with " ++ toString rep.status)

/-- `Emby::targeted_scan_batch`, same shape as `targeted_scan`. -/
def targeted_scan_batch (transport : Option (ScanHttp ScanPathsResponse)) :
    Except String ScanPathsResponse :=
  match transport with
  | none => .error ("send failed")
  | some rep =>
    match rep.parsed with
    | some result => .ok result
    | none => .error ("ScanPaths failed with " ++ toString rep.status)

/-- `Path::starts_with` on component lists. -/
def pathStartsWith (p q : FsPath) : Bool := q.isPrefixOf p

/-- `Emby::get_libraries`: every library one of whose locations is a path
prefix of `path`, one copy per matching location, mirroring the nested
`for` loops with `matched.push(library.clone())`. -/
def get_libraries (libraries : List Library) (path : FsPath) : List Library :=
  libraries.foldl (fun matched library =>
    library.locations.foldl (fun matched2 location =>
      if pathStartsWith path location then matched2 ++ [library] else matched2)
      matched) []

/-! ### The `succeeded : HashMap<String, bool>` accumulator

Modelled as an association list with unique keys.  `mapInsert` is
`HashMap::insert` (overwrite), `touchSucceed` is
`*succeeded.entry(id).or_insert(true) &= true` (which inserts `true` when
absent and keeps the stored value unchanged when present, since `v && true
= v`), and `mapTrueKeys` is the final
`iter().filter_map(|(k, v)| if *v ...)` extraction. -/

/-- Association-list model of `HashMap<String, bool>`. -/
abbrev SMap := List (String × Bool)

/-- Lookup in the success map. -/
def mapLookup : SMap → String → Option Bool
  | [], _ => none
  | p :: rest, k => if p.1 = k then some p.2 else mapLookup rest k

/-- `HashMap::insert`: overwrite the value at an existing key, else append. -/
def mapInsert : SMap → String → Bool → SMap
  | [], k, v => [(k, v)]
  | p :: rest, k, v => if p.1 = k then (k, v) :: rest else p :: mapInsert rest k v

/-- `*succeeded.entry(k).or_insert(true) &= true`. -/
def touchSucceed : SMap → String → SMap
  | [], k => [(k, true)]
  | p :: rest, k => if p.1 = k then p :: rest else p :: touchSucceed rest k

/-- The ids whose stored disposition is `true`. -/
def mapTrueKeys (m : SMap) : List String :=
  m.filterMap (fun p => if p.2 then some p.1 else none)

/-! ### Paginated item fetching (`Emby::fetch_items`) -/

/-- The fixed page size of `fetch_items` (`let limit = 1000`). -/
def pageSize : Nat := 1000

/-- The sequence of page requests the `fetch_items` producer task issues
against a server holding `rest` (remaining) items, starting at offset
`startIndex`: each entry is the `StartIndex` sent and the page of items
returned; the loop breaks when a page has fewer than `pageSize` items. -/
def fetchPages (rest : List Item) (startIndex : Nat) : List (Nat × List Item) :=
  let page := rest.take pageSize
  if _h : rest.length < pageSize then [(startIndex, page)]
  else (startIndex, page) :: fetchPages (rest.drop pageSize) (startIndex + pageSize)
termination_by rest.length
decreasing_by simp only [List.length_drop, pageSize] at *; omega

/-- What the `fetch_items` producer sends over the unbounded channel before
stopping: the items of all pages it fetched, plus whether it stopped because
a page fetch or parse errored (`errored := true`) rather than because the
last page was short.  The consumer never reads `errored`: the source drops
the producer's `JoinHandle` after `handle.abort()`. -/
structure ItemStream where
  delivered : List Item
  errored : Bool
deriving DecidableEq

/-- The stream produced by a fault-free producer over catalog `catalog`. -/
def streamOfCatalog (catalog : List Item) : ItemStream :=
  { delivered := (fetchPages catalog 0).foldl (fun acc p => acc ++ p.2) []
    errored := false }

/-! ### `Emby::get_items`: the Tier-3 consumer -/

/-- The `while let Some(item) = rx.recv()` loop of `get_items`: `events` is
the fixed library event list, `found`/`notfound` the accumulators
(`found_in_library`, `not_found_in_library`); on a path match the event is
paired with the item, all events with its id are retained out of
`notfound`, and the loop breaks once `notfound` is empty. -/
def getItemsGo : List Item → List ScanEvent → List (ScanEvent × Item) →
    List ScanEvent → List (ScanEvent × Item) × List ScanEvent
  | [], _, found, notfound => (found, notfound)
  | item :: rest, events, found, notfound =>
    match events.find? (fun ev => decide (item.path = some ev.path)) with
    | some ev =>
      let found2 := found ++ [(ev, item)]
      let notfound2 := notfound.filter (fun e => !(decide (e.id = ev.id)))
      if notfound2.isEmpty then (found2, notfound2)
      else getItemsGo rest events found2 notfound2
    | none => getItemsGo rest events found notfound

/-- `Emby::get_items` for one library: consumes the delivered item stream;
the producer's error flag is never inspected (mirroring the dropped
`JoinHandle`). -/
def get_items (stream : ItemStream) (events : List ScanEvent) :
    List (ScanEvent × Item) × List ScanEvent :=
  getItemsGo stream.delivered events [] events

/-! ### The network oracles and configuration -/

/-- The remote server's answers for one `process` run.  `fetch` is the
result of `fetch_items` itself (an `.error` models a failure constructing
the request before the producer task is spawned; `.ok` carries what the
spawned producer then sends). -/
structure Oracles where
  libs : Except String (List Library)
  batchHttp : List FsPath → Option (ScanHttp ScanPathsResponse)
  scanHttp : Nat → FsPath → Option (ScanHttp ScanPathResponse)
  fetch : Library → Except String ItemStream
  refresh : Item → Except String Unit

/-- The configuration fields of struct `Emby` that steer `process`; the
url/token/request fields parameterize the transport and
`metadata_refresh_mode` only the refresh request's query string, so they
live inside the oracles. -/
structure EmbyCfg where
  refresh_metadata : Bool

/-! ### Intake: rewrite paths and drop events with no matching library -/

/-- The first loop of `process`: each event with no matching library is
recorded `true` in `succeeded` and skipped; the others are paired with
their rewritten path in `all_with_paths`. -/
def intake (libraries : List Library) (evs : List ScanEvent) :
    SMap × List (ScanEvent × FsPath) :=
  evs.foldl (fun st ev =>
    if (get_libraries libraries ev.path).isEmpty then
      (mapInsert st.1 ev.id true, st.2)
    else (st.1, st.2 ++ [(ev, ev.path)])) ([], [])

/-! ### Tier 1: one batch targeted scan -/

/-- The key under which a batch result is stored in `result_map`:
`if r.path.is_empty() { r.message } else { r.path }`. -/
def respKey (r : ScanPathResponse) : FsPath :=
  if r.path = [] then r.message else r.path

/-- `result_map`: the batch results collected into a `HashMap` keyed by
`respKey`; with duplicate keys the later element overwrites the earlier
one, as `collect` into a `HashMap` does. -/
def buildResultMap (results : List ScanPathResponse) :
    FsPath → Option ScanPathResponse :=
  results.foldl (fun m r k => if k = respKey r then some r else m k)
    (fun _ => none)

/-- Status is `Created`, `Refreshed` or `Discovered`. -/
def isResolvedStatus (s : String) : Bool :=
  decide (s = "Created") || decide (s = "Refreshed") || decide (s = "Discovered")

/-- Status is `PathNotFound` or `ParentNotFound`. -/
def isNotFoundStatus (s : String) : Bool :=
  decide (s = "PathNotFound") || decide (s = "ParentNotFound")

/-- The Tier-1 match arms on `result_map.get(ev_path)`: both the
resolved-status arm and the not-found-status arm mark the event succeeded;
a missing result or any other status falls to the `_` arm. -/
def tier1Success : Option ScanPathResponse → Bool
  | some r => isResolvedStatus r.status || isNotFoundStatus r.status
  | none => false

/-- The Tier-1 classification loop over `all_with_paths` (run only when the
batch call parsed): succeeded events are recorded via
`entry(id).or_insert(true) &= true`, the rest are pushed to `remaining`. -/
def tier1 (batch_result : ScanPathsResponse) (succ : SMap)
    (aw : List (ScanEvent × FsPath)) : SMap × List (ScanEvent × FsPath) :=
  aw.foldl (fun st ep =>
    if tier1Success (buildResultMap batch_result.results ep.2) then
      (touchSucceed st.1 ep.1.id, st.2)
    else (st.1, st.2 ++ [ep])) (succ, [])

/-! ### Tier 2: individual targeted scans with backoff -/

/-- `let backoff_delays = [5, 15, 30]`. -/
def backoffDelays : List Nat := [5, 15, 30]

/-- One Tier-2 round: `join_all` preserves issue order, so the round is a
fold over `remaining` in order; any parsed result (both the not-found arm
and the catch-all `Ok` arm of the source) marks the event succeeded, an
errored call pushes it to `still_remaining`. -/
def tier2Round (scan1 : FsPath → Except String ScanPathResponse) (acc : SMap)
    (remaining : List (ScanEvent × FsPath)) :
    SMap × List (ScanEvent × FsPath) :=
  remaining.foldl (fun st ep =>
    match scan1 ep.2 with
    | .ok _ => (touchSucceed st.1 ep.1.id, st.2)
    | .error _ => (st.1, st.2 ++ [ep])) (acc, [])

/-- The `for attempt in 0..=backoff_delays.len()` loop: `attempts` is the
list of attempt indices still to run; the loop breaks when `remaining` is
empty, sleeps `backoff_delays[attempt - 1]` before every attempt after the
first, and issues one round per remaining attempt.  Besides the source's
state (the success map and `remaining`) the model returns the number of
rounds issued and the list of delays slept, for specification purposes. -/
def tier2Go (scan : Nat → FsPath → Except String ScanPathResponse) :
    List Nat → SMap → List (ScanEvent × FsPath) →
    SMap × List (ScanEvent × FsPath) × Nat × List Nat
  | [], acc, remaining => (acc, remaining, 0, [])
  | attempt :: rest, acc, remaining =>
    if remaining.isEmpty then (acc, remaining, 0, [])
    else
      let slept := if attempt = 0 then ([] : List Nat)
        else [backoffDelays.getD (attempt - 1) 0]
      let r := tier2Round (scan attempt) acc remaining
      let t := tier2Go scan rest r.1 r.2
      (t.1, t.2.1, t.2.2.1 + 1, slept ++ t.2.2.2)

/-! ### Tier 3: library enumeration fallback -/

/-- `to_find.entry(library).or_insert_with(Vec::new).push(ev)`. -/
def groupPush (g : List (Library × List ScanEvent)) (lib : Library)
    (ev : ScanEvent) : List (Library × List ScanEvent) :=
  if g.any (fun p => decide (p.1 = lib)) then
    g.map (fun p => if p.1 = lib then (p.1, p.2 ++ [ev]) else p)
  else g ++ [(lib, [ev])]

/-- Building `to_find`: every remaining event is enqueued once per matched
library (with multiplicity, as `get_libraries` yields).  Iteration order of
the Rust `HashMap` is unspecified; the model canonicalizes it to first
insertion order. -/
def buildToFind (libraries : List Library)
    (remaining : List (ScanEvent × FsPath)) :
    List (Library × List ScanEvent) :=
  remaining.foldl (fun g ep =>
    (get_libraries libraries ep.2).foldl (fun g2 lib => groupPush g2 lib ep.1)
      g) []

/-- Processing one `to_find` entry: fetch the library's items (an error
here, from `fetch_items` itself, aborts with the library's name as context);
each found pair gets a refresh call (the returned trace records the item ids
refreshed, success recorded via `entry.or_insert(true) &= true`, failure via
`insert(id, false)`); every event not found in this library is recorded
failed via `insert(id, false)`. -/
def processGroup (o : Oracles) (g : Library × List ScanEvent) (m : SMap) :
    Except String (SMap × List String) :=
  match o.fetch g.1 with
  | .error _ => .error ("failed to fetch items for library: " ++ g.1.name)
  | .ok stream =>
    let fr := get_items stream g.2
    let step1 := fr.1.foldl (fun (st : SMap × List String) p =>
      match o.refresh p.2 with
      | .ok _ => (touchSucceed st.1 p.1.id, st.2 ++ [p.2.id])
      | .error _ => (mapInsert st.1 p.1.id false, st.2 ++ [p.2.id]))
      (m, [])
    .ok (fr.2.foldl (fun mm e => mapInsert mm e.id false) step1.1, step1.2)

/-- The `for (library, library_events) in to_find` loop, short-circuiting
on the first fetch error; the second component concatenates the refresh
call traces. -/
def tier3 (o : Oracles) : List (Library × List ScanEvent) → SMap →
    Except String (SMap × List String)
  | [], m => .ok (m, [])
  | g :: gs, m =>
    match processGroup o g m with
    | .error e => .error e
    | .ok pr =>
      match tier3 o gs pr.1 with
      | .error e => .error e
      | .ok pr2 => .ok (pr2.1, pr.2 ++ pr2.2)

/-- The tail of `process`: Tier 3 when events remain and
`refresh_metadata` is set; otherwise every remaining event is recorded
failed; otherwise the map is already final. -/
def tier3OrFail (cfg : EmbyCfg) (o : Oracles) (libraries : List Library)
    (succ2 : SMap) (remaining2 : List (ScanEvent × FsPath)) :
    Except String SMap :=
  if !remaining2.isEmpty && cfg.refresh_metadata then
    match tier3 o (buildToFind libraries remaining2) succ2 with
    | .error e => .error e
    | .ok pr => .ok pr.1
  else if !remaining2.isEmpty then
    .ok (remaining2.foldl (fun m ep => mapInsert m ep.1.id false) succ2)
  else .ok succ2

/-- `TargetProcess::process` for `Emby`: fetch libraries (fatal on error),
intake, early return `Ok(vec![])` when no event matched a library, Tier 1
batch scan (an errored batch call demotes everything to `remaining`),
Tier 2 rounds, Tier 3 or direct failure, and finally the ids whose stored
disposition is `true`. -/
def process (cfg : EmbyCfg) (o : Oracles) (evs : List ScanEvent) :
    Except String (List String) :=
  match o.libs with
  | .error _ => .error ("failed to fetch libraries")
  | .ok libraries =>
    let st := intake libraries evs
    if st.2.isEmpty then .ok []
    else
      let batch_paths := st.2.map Prod.snd
      let t1 :=
        match targeted_scan_batch (o.batchHttp batch_paths) with
        | .ok batch_result => tier1 batch_result st.1 st.2
        | .error _ => (st.1, st.2)
      let t2 := tier2Go (fun n p => targeted_scan (o.scanHttp n p))
        [0, 1, 2, 3] t1.1 t1.2
      match tier3OrFail cfg o libraries t2.1 t2.2.1 with
      | .error e => .error e
      | .ok m => .ok (mapTrueKeys m)

/-! ### Derived observations on one `to_find` entry (used in statements) -/

/-- Whether `to_find` entry `g` holds an event with id `evId`. -/
def groupInvolves (g : Library × List ScanEvent) (evId : String) : Bool :=
  g.2.any (fun e => decide (e.id = evId))

/-- The contribution one `to_find` entry makes for id `evId`: the id must
not be left pending by the consumer loop, and every found pair carrying it
must refresh successfully.  Only meaningful when the fetch succeeded. -/
def groupVerdict (o : Oracles) (g : Library × List ScanEvent)
    (evId : String) : Bool :=
  match o.fetch g.1 with
  | .error _ => false
  | .ok stream =>
    !((get_items stream g.2).2.any (fun e => decide (e.id = evId))) &&
    ((get_items stream g.2).1.filter (fun p => decide (p.1.id = evId))).all
      (fun p => (o.refresh p.2).isOk)

/-- The refresh calls (item ids, in order) one `to_find` entry generates. -/
def groupCalls (o : Oracles) (g : Library × List ScanEvent) : List String :=
  match o.fetch g.1 with
  | .error _ => []
  | .ok stream => (get_items stream g.2).1.map (fun p => p.2.id)

/-! ### Concrete fixtures used by counterexamples and witnesses -/

/-- A library named `A` rooted at `/m`. -/
def libA : Library := ⟨"A", [["m"]], "1", none⟩

/-- A second library also rooted at `/m`. -/
def libB : Library := ⟨"B", [["m"]], "2", none⟩

/-- A third library also rooted at `/m`. -/
def libC : Library := ⟨"C", [["m"]], "3", none⟩

/-- An event whose rewritten path is `/m/x`. -/
def evA : ScanEvent := ⟨"e1", ["m", "x"]⟩

/-- An item of library `A` at the event's path. -/
def itemA : Item := ⟨"itA", some ["m", "x"]⟩

/-- An item of library `B` at the event's path. -/
def itemB : Item := ⟨"itB", some ["m", "x"]⟩

/-- Configuration with the metadata-refresh fallback enabled. -/
def cfgT : EmbyCfg := ⟨true⟩

/-- A parsed scan result whose status is none of the five recognized
values. -/
def badStatusResp : ScanPathResponse := ⟨"", "", "Failed", [], []⟩

/-- A parsed `Created` result for the path `/m/x`. -/
def createdResp : ScanPathResponse := ⟨"42", "", "Created", ["m", "x"], []⟩

/-- An individual-scan oracle answering every path with the
unrecognized-status result. -/
def scanOkBad : FsPath → Except String ScanPathResponse :=
  fun _ => .ok badStatusResp

/-- A world with no libraries and no reachable endpoints. -/
def noNetOracle : Oracles :=
  ⟨.ok [], fun _ => none, fun _ _ => none, fun _ => .ok ⟨[], false⟩,
    fun _ => .ok ()⟩

/-- A world where the event matches libraries `A`, `B` and `C`; its path is
indexed in `A` and in `B` but absent from `C`; targeted scans are all
unavailable and refreshes succeed. -/
def cexOracle5 : Oracles :=
  ⟨.ok [libA, libB, libC], fun _ => none, fun _ _ => none,
    fun lib =>
      if lib.name = "A" then .ok ⟨[itemA], false⟩
      else if lib.name = "B" then .ok ⟨[itemB], false⟩
      else .ok ⟨[], false⟩,
    fun _ => .ok ()⟩

/-- A world where library `A` matches but its item producer stops with a
page fetch error before delivering anything. -/
def errStreamOracle : Oracles :=
  ⟨.ok [libA], fun _ => none, fun _ _ => none, fun _ => .ok ⟨[], true⟩,
    fun _ => .ok ()⟩

/-- A world where `fetch_items` itself fails (before the producer task is
spawned). -/
def errFetchOracle : Oracles :=
  ⟨.ok [libA], fun _ => none, fun _ _ => none,
    fun _ => .error ("connection reset"), fun _ => .ok ()⟩

/-! ## Lemmas about the success-map operations -/

theorem mapLookup_insert (m : SMap) (k k' : String) (v : Bool) :
    mapLookup (mapInsert m k v) k' = if k = k' then some v else mapLookup m k' := by
  induction m with
  | nil => simp [mapInsert, mapLookup]
  | cons p rest ih =>
    by_cases hp : p.1 = k
    · by_cases h : k = k' <;> simp [mapInsert, mapLookup, hp, h]
    · by_cases h2 : k = k'
      · subst h2; simp [mapInsert, mapLookup, hp, ih]
      · by_cases h1 : p.1 = k'
        · have h3 : ¬k' = k := fun hh => h2 hh.symm
          simp [mapInsert, mapLookup, hp, h1, h2, h3, ih]
        · simp [mapInsert, mapLookup, hp, h1, h2, ih]

theorem mapLookup_touch (m : SMap) (k k' : String) :
    mapLookup (touchSucceed m k) k' =
      if k = k' then some ((mapLookup m k).getD true) else mapLookup m k' := by
  induction m with
  | nil => simp [touchSucceed, mapLookup]
  | cons p rest ih =>
    by_cases hp : p.1 = k
    · by_cases h : k = k' <;> simp [touchSucceed, mapLookup, hp, h]
    · by_cases h2 : k = k'
      · subst h2; simp [touchSucceed, mapLookup, hp, ih]
      · by_cases h1 : p.1 = k'
        · have h3 : ¬k' = k := fun hh => h2 hh.symm
          simp [touchSucceed, mapLookup, hp, h1, h2, h3, ih]
        · simp [touchSucceed, mapLookup, hp, h1, h2, ih]

theorem mapInsert_keys (m : SMap) (k : String) (v : Bool) :
    (mapInsert m k v).map Prod.fst =
      if (mapLookup m k).isSome then m.map Prod.fst else m.map Prod.fst ++ [k] := by
  induction m with
  | nil => simp [mapInsert, mapLookup]
  | cons p rest ih =>
    by_cases hp : p.1 = k <;> simp [mapInsert, mapLookup, hp, ih] <;> split <;> simp

theorem touchSucceed_keys (m : SMap) (k : String) :
    (touchSucceed m k).map Prod.fst =
      if (mapLookup m k).isSome then m.map Prod.fst else m.map Prod.fst ++ [k] := by
  induction m with
  | nil => simp [touchSucceed, mapLookup]
  | cons p rest ih =>
    by_cases hp : p.1 = k <;> simp [touchSucceed, mapLookup, hp, ih] <;> split <;> simp

theorem mapLookup_none_notMem (m : SMap) (k : String)
    (h : mapLookup m k = none) : k ∉ m.map Prod.fst := by
  induction m with
  | nil => simp
  | cons p rest ih =>
    intro hmem
    simp only [List.map_cons, List.mem_cons] at hmem
    by_cases hp : p.1 = k
    · simp [mapLookup, hp] at h
    · rcases hmem with hm | hm
      · exact hp hm.symm
      · exact ih (by simpa [mapLookup, hp] using h) hm

theorem mapInsert_mem (m : SMap) (k : String) (v : Bool) :
    ∀ p ∈ mapInsert m k v, p = (k, v) ∨ p ∈ m := by
  induction m with
  | nil => simp [mapInsert]
  | cons q rest ih =>
    intro p hp
    by_cases hq : q.1 = k <;> simp [mapInsert, hq] at hp
    · rcases hp with hp | hp
      · exact Or.inl hp
      · exact Or.inr (by simp [hp])
    · rcases hp with hp | hp
      · exact Or.inr (by simp [hp])
      · rcases ih p hp with h | h
        · exact Or.inl h
        · exact Or.inr (by simp [h])

theorem touchSucceed_mem (m : SMap) (k : String) :
    ∀ p ∈ touchSucceed m k, p = (k, true) ∨ p ∈ m := by
  induction m with
  | nil => simp [touchSucceed]
  | cons q rest ih =>
    intro p hp
    by_cases hq : q.1 = k <;> simp [touchSucceed, hq] at hp
    · rcases hp with hp | hp
      · exact Or.inr (by simp [hp])
      · exact Or.inr (by simp [hp])
    · rcases hp with hp | hp
      · exact Or.inr (by simp [hp])
      · rcases ih p hp with h | h
        · exact Or.inl h
        · exact Or.inr (by simp [h])

/-- Well-formedness carried through `process`: the success map has
pairwise-distinct keys, all drawn from `ids`. -/
def goodMap (m : SMap) (ids : List String) : Prop :=
  (m.map Prod.fst).Nodup ∧ ∀ p ∈ m, p.1 ∈ ids

theorem goodMap_nil (ids : List String) : goodMap [] ids := by
  constructor <;> simp

theorem goodMap_insert (m : SMap) (ids : List String) (k : String) (v : Bool)
    (h : goodMap m ids) (hk : k ∈ ids) : goodMap (mapInsert m k v) ids := by
  obtain ⟨h1, h2⟩ := h
  constructor
  · rw [mapInsert_keys]
    rcases hl : mapLookup m k with _ | b
    · have hn := mapLookup_none_notMem m k hl
      simp only [hl, Option.isSome_none, Bool.false_eq_true, if_false]
      rw [List.nodup_append]
      exact ⟨h1, by simp, fun a ha hb => by simp at hb; exact hn (hb ▸ ha)⟩
    · simp [hl, h1]
  · intro p hp
    rcases mapInsert_mem m k v p hp with h | h
    · simp [h, hk]
    · exact h2 p h

theorem goodMap_touch (m : SMap) (ids : List String) (k : String)
    (h : goodMap m ids) (hk : k ∈ ids) : goodMap (touchSucceed m k) ids := by
  obtain ⟨h1, h2⟩ := h
  constructor
  · rw [touchSucceed_keys]
    rcases hl : mapLookup m k with _ | b
    · have hn := mapLookup_none_notMem m k hl
      simp only [hl, Option.isSome_none, Bool.false_eq_true, if_false]
      rw [List.nodup_append]
      exact ⟨h1, by simp, fun a ha hb => by simp at hb; exact hn (hb ▸ ha)⟩
    · simp [hl, h1]
  · intro p hp
    rcases touchSucceed_mem m k p hp with h | h
    · simp [h, hk]
    · exact h2 p h

theorem mapTrueKeys_sublist (m : SMap) :
    (mapTrueKeys m).Sublist (m.map Prod.fst) := by
  induction m with
  | nil => simp [mapTrueKeys]
  | cons p rest ih =>
    by_cases hp : p.2 <;> simp [mapTrueKeys, hp] at ih ⊢
    · exact ih
    · exact ih.cons p.1

theorem goodMap_trueKeys (m : SMap) (ids : List String) (h : goodMap m ids) :
    (mapTrueKeys m).Nodup ∧ ∀ i ∈ mapTrueKeys m, i ∈ ids := by
  constructor
  · exact List.Nodup.sublist (mapTrueKeys_sublist m) h.1
  · intro i hi
    have : i ∈ m.map Prod.fst := (mapTrueKeys_sublist m).mem hi
    obtain ⟨p, hp, he⟩ := List.mem_map.mp this
    exact he ▸ h.2 p hp

/-! ## Lemmas about pagination -/

theorem fetchPages_short (rest : List Item) (s : Nat)
    (h : rest.length < pageSize) :
    fetchPages rest s = [(s, rest.take pageSize)] := by
  rw [fetchPages]
  simp [h]

theorem fetchPages_long (rest : List Item) (s : Nat)
    (h : ¬rest.length < pageSize) :
    fetchPages rest s =
      (s, rest.take pageSize) :: fetchPages (rest.drop pageSize) (s + pageSize) := by
  rw [fetchPages]
  simp [h]

theorem fetchPages_length (rest : List Item) (s : Nat) :
    (fetchPages rest s).length = rest.length / pageSize + 1 := by
  by_cases h : rest.length < pageSize
  · rw [fetchPages_short rest s h]
    have : rest.length / pageSize = 0 := Nat.div_eq_of_lt h
    simp [this]
  · rw [fetchPages_long rest s h]
    have ih := fetchPages_length (rest.drop pageSize) (s + pageSize)
    simp only [List.length_cons, ih, List.length_drop]
    simp only [pageSize] at h ⊢
    omega
termination_by rest.length
decreasing_by simp only [List.length_drop, pageSize] at *; omega

theorem fetchPages_offsets (rest : List Item) (s : Nat) :
    (fetchPages rest s).map Prod.fst =
      (List.range (fetchPages rest s).length).map (fun i => s + i * pageSize) := by
  by_cases h : rest.length < pageSize
  · rw [fetchPages_short rest s h]
    simp [List.range_succ]
  · rw [fetchPages_long rest s h]
    have ih := fetchPages_offsets (rest.drop pageSize) (s + pageSize)
    simp only [List.map_cons, List.length_cons, ih]
    rw [List.range_succ_eq_map]
    simp only [List.map_cons, List.map_map, Nat.zero_mul, Nat.add_zero]
    congr 1
    apply List.map_congr_left
    intro a _
    simp only [Function.comp_apply, Nat.succ_eq_add_one, Nat.add_mul, Nat.one_mul]
    omega
termination_by rest.length
decreasing_by simp only [List.length_drop, pageSize] at *; omega

theorem fetchPages_full_pages (rest : List Item) (s : Nat) :
    ∀ p ∈ (fetchPages rest s).dropLast, p.2.length = pageSize := by
  by_cases h : rest.length < pageSize
  · rw [fetchPages_short rest s h]
    simp
  · rw [fetchPages_long rest s h]
    have ih := fetchPages_full_pages (rest.drop pageSize) (s + pageSize)
    have hne : fetchPages (rest.drop pageSize) (s + pageSize) ≠ [] := by
      have := fetchPages_length (rest.drop pageSize) (s + pageSize)
      intro he
      rw [he] at this
      simp at this
    intro p hp
    rw [List.dropLast_cons_of_ne_nil hne] at hp
    rcases List.mem_cons.mp hp with hp | hp
    · subst hp
      simp only [List.length_take]
      simp only [pageSize] at h ⊢
      omega
    · exact ih p hp
termination_by rest.length
decreasing_by simp only [List.length_drop, pageSize] at *; omega

theorem fetchPages_last (rest : List Item) (s : Nat) (d : Nat × List Item) :
    ((fetchPages rest s).getLastD d).2.length = rest.length % pageSize := by
  by_cases h : rest.length < pageSize
  · rw [fetchPages_short rest s h]
    rw [List.getLastD_cons, List.getLastD_nil]
    simp only [List.length_take]
    simp only [pageSize] at h ⊢
    omega
  · rw [fetchPages_long rest s h]
    have ih := fetchPages_last (rest.drop pageSize) (s + pageSize)
      (s, rest.take pageSize)
    rw [List.getLastD_cons, ih, List.length_drop]
    simp only [pageSize] at h ⊢
    omega
termination_by rest.length
decreasing_by simp only [List.length_drop, pageSize] at *; omega

theorem fetchPages_join (rest : List Item) (s : Nat) :
    (fetchPages rest s).foldl (fun acc p => acc ++ p.2) [] = rest := by
  have general : ∀ n (r : List Item) (s0 : Nat) (acc : List Item), r.length ≤ n →
      (fetchPages r s0).foldl (fun a p => a ++ p.2) acc = acc ++ r := by
    intro n
    induction n with
    | zero =>
      intro r s0 acc hr
      have : r = [] := List.eq_nil_of_length_eq_zero (Nat.le_zero.mp hr)
      subst this
      rw [fetchPages_short _ _ (by simp [pageSize])]
      simp
    | succ n ih =>
      intro r s0 acc hr
      by_cases h : r.length < pageSize
      · rw [fetchPages_short r s0 h]
        simp [List.take_of_length_le (Nat.le_of_lt h)]
      · rw [fetchPages_long r s0 h]
        simp only [List.foldl_cons]
        rw [ih (r.drop pageSize) (s0 + pageSize) _ ?_]
        · rw [List.append_assoc, List.take_append_drop]
        · simp only [List.length_drop, pageSize] at h hr ⊢
          omega
  exact general rest.length rest s [] (Nat.le_refl _)

/-! ## Lemmas about Tier 1 -/

/-- `buildResultMap` over a prefix plus suffix evaluates the suffix last. -/
theorem buildResultMap_append (xs ys : List ScanPathResponse) :
    buildResultMap (xs ++ ys) =
      ys.foldl (fun m r k => if k = respKey r then some r else m k)
        (buildResultMap xs) := by
  simp [buildResultMap, List.foldl_append]

theorem buildResultMap_skip (ys : List ScanPathResponse)
    (m : FsPath → Option ScanPathResponse) (k : FsPath)
    (h : ∀ r ∈ ys, respKey r ≠ k) :
    ys.foldl (fun m r k => if k = respKey r then some r else m k) m k = m k := by
  induction ys generalizing m with
  | nil => rfl
  | cons r rest ih =>
    simp only [List.foldl_cons]
    rw [ih _ (fun r' hr' => h r' (by simp [hr']))]
    have : k ≠ respKey r := fun he => h r (by simp) he.symm
    simp [this]

/-- The last response bearing a key decides that key's map entry. -/
theorem buildResultMap_last (xs : List ScanPathResponse) (r : ScanPathResponse)
    (ys : List ScanPathResponse) (h : ∀ r' ∈ ys, respKey r' ≠ respKey r) :
    buildResultMap (xs ++ r :: ys) (respKey r) = some r := by
  have : xs ++ r :: ys = (xs ++ [r]) ++ ys := by simp
  rw [this, buildResultMap_append, buildResultMap_skip ys _ _ h,
    buildResultMap_append]
  simp

/-- A hit in `result_map` is a response from the batch, stored under its
own key. -/
theorem buildResultMap_mem (rs : List ScanPathResponse) (k : FsPath)
    (r : ScanPathResponse) (h : buildResultMap rs k = some r) :
    r ∈ rs ∧ respKey r = k := by
  induction rs using List.reverseRecOn with
  | nil => simp [buildResultMap] at h
  | append_singleton xs x ih =>
    rw [buildResultMap_append] at h
    simp only [List.foldl_cons, List.foldl_nil] at h
    by_cases hk : k = respKey x
    · simp only [hk, if_pos rfl] at h
      cases h
      exact ⟨by simp, hk.symm⟩
    · simp only [if_neg hk] at h
      obtain ⟨h1, h2⟩ := ih h
      exact ⟨by simp [h1], h2⟩

/-- The Tier-1 loop keeps an event exactly when its map entry does not
classify it as succeeded, preserving input order. -/
theorem tier1_snd (br : ScanPathsResponse) (succ : SMap)
    (aw : List (ScanEvent × FsPath)) :
    (tier1 br succ aw).2 =
      aw.filter (fun ep => !tier1Success (buildResultMap br.results ep.2)) := by
  have general : ∀ (l : List (ScanEvent × FsPath)) (m : SMap)
      (acc : List (ScanEvent × FsPath)),
      (l.foldl (fun st ep =>
        if tier1Success (buildResultMap br.results ep.2) then
          (touchSucceed st.1 ep.1.id, st.2)
        else (st.1, st.2 ++ [ep])) (m, acc)).2 =
        acc ++ l.filter (fun ep => !tier1Success (buildResultMap br.results ep.2)) := by
    intro l
    induction l with
    | nil => simp
    | cons ep rest ih =>
      intro m acc
      by_cases h : tier1Success (buildResultMap br.results ep.2) <;>
        simp [h, ih, List.filter_cons]
  simpa [tier1] using general aw succ []

theorem tier1_good (br : ScanPathsResponse) (succ : SMap)
    (aw : List (ScanEvent × FsPath)) (ids : List String)
    (hm : goodMap succ ids) (ha : ∀ ep ∈ aw, ep.1.id ∈ ids) :
    goodMap (tier1 br succ aw).1 ids := by
  have general : ∀ (l : List (ScanEvent × FsPath)) (m : SMap)
      (acc : List (ScanEvent × FsPath)), goodMap m ids →
      (∀ ep ∈ l, ep.1.id ∈ ids) →
      goodMap (l.foldl (fun st ep =>
        if tier1Success (buildResultMap br.results ep.2) then
          (touchSucceed st.1 ep.1.id, st.2)
        else (st.1, st.2 ++ [ep])) (m, acc)).1 ids := by
    intro l
    induction l with
    | nil => intro m acc hm _; exact hm
    | cons ep rest ih =>
      intro m acc hm hl
      simp only [List.foldl_cons]
      by_cases h : tier1Success (buildResultMap br.results ep.2)
      · rw [if_pos h]
        exact ih _ _ (goodMap_touch _ _ _ hm (hl ep (by simp)))
          (fun q hq => hl q (by simp [hq]))
      · rw [if_neg h]
        exact ih _ _ hm (fun q hq => hl q (by simp [hq]))
  exact general aw succ [] hm ha

/-! ## Lemmas about Tier 2 -/

/-- A Tier-2 round keeps exactly the events whose individual call errored,
in order. -/
theorem tier2Round_snd (scan1 : FsPath → Except String ScanPathResponse)
    (acc : SMap) (remaining : List (ScanEvent × FsPath)) :
    (tier2Round scan1 acc remaining).2 =
      remaining.filter (fun ep => !(scan1 ep.2).isOk) := by
  have general : ∀ (l : List (ScanEvent × FsPath)) (m : SMap)
      (r : List (ScanEvent × FsPath)),
      (l.foldl (fun st ep =>
        match scan1 ep.2 with
        | .ok _ => (touchSucceed st.1 ep.1.id, st.2)
        | .error _ => (st.1, st.2 ++ [ep])) (m, r)).2 =
        r ++ l.filter (fun ep => !(scan1 ep.2).isOk) := by
    intro l
    induction l with
    | nil => simp
    | cons ep rest ih =>
      intro m r
      rcases h : scan1 ep.2 with v | e <;>
        simp [h, ih, List.filter_cons, Except.isOk, Except.toBool]
  simpa [tier2Round] using general remaining acc []

theorem tier2Round_good (scan1 : FsPath → Except String ScanPathResponse)
    (acc : SMap) (remaining : List (ScanEvent × FsPath)) (ids : List String)
    (hm : goodMap acc ids) (ha : ∀ ep ∈ remaining, ep.1.id ∈ ids) :
    goodMap (tier2Round scan1 acc remaining).1 ids := by
  have general : ∀ (l : List (ScanEvent × FsPath)) (m : SMap)
      (r : List (ScanEvent × FsPath)), goodMap m ids →
      (∀ ep ∈ l, ep.1.id ∈ ids) →
      goodMap (l.foldl (fun st ep =>
        match scan1 ep.2 with
        | .ok _ => (touchSucceed st.1 ep.1.id, st.2)
        | .error _ => (st.1, st.2 ++ [ep])) (m, r)).1 ids := by
    intro l
    induction l with
    | nil => intro m r hm _; exact hm
    | cons ep rest ih =>
      intro m r hm hl
      rcases h : scan1 ep.2 with e | v <;> simp only [List.foldl_cons, h]
      · exact ih _ _ hm (fun q hq => hl q (by simp [hq]))
      · exact ih _ _ (goodMap_touch _ _ _ hm (hl ep (by simp)))
          (fun q hq => hl q (by simp [hq]))
  exact general remaining acc [] hm ha

/-- `touchSucceed` never stores `false` into a map that has none. -/
theorem touchSucceed_noFalse (m : SMap) (k : String)
    (h : ∀ k0, mapLookup m k0 ≠ some false) :
    ∀ k0, mapLookup (touchSucceed m k) k0 ≠ some false := by
  intro k0
  rw [mapLookup_touch]
  by_cases hk : k = k0
  · rcases hl : mapLookup m k with _ | b
    · simp [hk, hl]
    · cases b
      · exact absurd hl (h k)
      · simp [hk, hl]
  · simp [hk]
    exact h k0

/-- In a round over a map holding no `false`, every event whose call
returned a parsed body ends up stored `true`. -/
theorem tier2Round_ok_true (scan1 : FsPath → Except String ScanPathResponse)
    (acc : SMap) (remaining : List (ScanEvent × FsPath))
    (hacc : ∀ k, mapLookup acc k ≠ some false) :
    ∀ ep ∈ remaining, (scan1 ep.2).isOk = true →
      mapLookup (tier2Round scan1 acc remaining).1 ep.1.id = some true := by
  have general : ∀ (l : List (ScanEvent × FsPath)) (m : SMap)
      (r : List (ScanEvent × FsPath)), (∀ k, mapLookup m k ≠ some false) →
      (∀ ep ∈ l, (scan1 ep.2).isOk = true →
        mapLookup (l.foldl (fun st ep =>
          match scan1 ep.2 with
          | .ok _ => (touchSucceed st.1 ep.1.id, st.2)
          | .error _ => (st.1, st.2 ++ [ep])) (m, r)).1 ep.1.id = some true)
      ∧ (∀ k, mapLookup (l.foldl (fun st ep =>
          match scan1 ep.2 with
          | .ok _ => (touchSucceed st.1 ep.1.id, st.2)
          | .error _ => (st.1, st.2 ++ [ep])) (m, r)).1 k ≠ some false)
      ∧ (∀ k b, mapLookup m k = some b →
          mapLookup (l.foldl (fun st ep =>
          match scan1 ep.2 with
          | .ok _ => (touchSucceed st.1 ep.1.id, st.2)
          | .error _ => (st.1, st.2 ++ [ep])) (m, r)).1 k = some b) := by
    intro l
    induction l with
    | nil =>
      intro m r hm
      exact ⟨by simp, hm, by simp⟩
    | cons ep rest ih =>
      intro m r hm
      rcases h : scan1 ep.2 with e | v <;> simp only [List.foldl_cons, h]
      · refine ⟨?_, (ih m (r ++ [ep]) hm).2.1, (ih m (r ++ [ep]) hm).2.2⟩
        intro q hq hok
        rcases List.mem_cons.mp hq with hq | hq
        · rw [hq, h] at hok
          simp [Except.isOk, Except.toBool] at hok
        · exact (ih m (r ++ [ep]) hm).1 q hq hok
      · have hm2 := touchSucceed_noFalse m ep.1.id hm
        refine ⟨?_, (ih _ r hm2).2.1, ?_⟩
        · intro q hq hok
          rcases List.mem_cons.mp hq with hq | hq
          · subst hq
            apply (ih _ r hm2).2.2
            rw [mapLookup_touch, if_pos rfl]
            rcases hl : mapLookup m q.1.id with _ | b
            · simp
            · cases b
              · exact absurd hl (hm q.1.id)
              · simp
          · exact (ih _ r hm2).1 q hq hok
        · intro k b hk
          apply (ih _ r hm2).2.2
          rw [mapLookup_touch]
          by_cases he : ep.1.id = k
          · rw [if_pos he, he, hk]
            cases b
            · exact absurd hk (hm k)
            · simp
          · rw [if_neg he]
            exact hk
  intro ep hep hok
  exact (general remaining acc [] hacc).1 ep hep hok

/-- The remaining set after the whole Tier-2 loop is the input filtered,
round after round, by the calls that errored; the early-exit branch agrees
with this because filtering an empty list is empty. -/
theorem tier2Go_remaining (scan : Nat → FsPath → Except String ScanPathResponse)
    (attempts : List Nat) (acc : SMap) (remaining : List (ScanEvent × FsPath)) :
    (tier2Go scan attempts acc remaining).2.1 =
      attempts.foldl (fun r a => r.filter (fun ep => !(scan a ep.2).isOk))
        remaining := by
  induction attempts generalizing acc remaining with
  | nil => simp [tier2Go]
  | cons a rest ih =>
    by_cases h : remaining.isEmpty
    · have he : remaining = [] := List.isEmpty_iff.mp h
      subst he
      have : ∀ (l : List Nat),
          l.foldl (fun r a => r.filter (fun ep => !(scan a ep.2).isOk))
            ([] : List (ScanEvent × FsPath)) = [] := by
        intro l
        induction l with
        | nil => rfl
        | cons b bs ihb => simpa using ihb
      simp [tier2Go, this]
    · simp only [tier2Go, h, Bool.false_eq_true, if_false, List.foldl_cons]
      rw [ih, tier2Round_snd]

theorem tier2Go_good (scan : Nat → FsPath → Except String ScanPathResponse)
    (attempts : List Nat) (acc : SMap) (remaining : List (ScanEvent × FsPath))
    (ids : List String) (hm : goodMap acc ids)
    (ha : ∀ ep ∈ remaining, ep.1.id ∈ ids) :
    goodMap (tier2Go scan attempts acc remaining).1 ids := by
  induction attempts generalizing acc remaining with
  | nil => exact hm
  | cons a rest ih =>
    by_cases h : remaining.isEmpty
    · simpa [tier2Go, h] using hm
    · simp only [tier2Go, h, Bool.false_eq_true, if_false]
      apply ih
      · exact tier2Round_good _ _ _ _ hm ha
      · intro ep hep
        have : ep ∈ remaining := by
          have := tier2Round_snd (scan a) acc remaining
          rw [this] at hep
          exact List.mem_of_mem_filter hep
        exact ha ep this

/-- Every event kept by the Tier-2 loop was already in its input. -/
theorem tier2Go_remaining_sub
    (scan : Nat → FsPath → Except String ScanPathResponse)
    (attempts : List Nat) (acc : SMap) (remaining : List (ScanEvent × FsPath)) :
    ∀ ep ∈ (tier2Go scan attempts acc remaining).2.1, ep ∈ remaining := by
  rw [tier2Go_remaining]
  induction attempts generalizing remaining with
  | nil => simp
  | cons a rest ih =>
    intro ep hep
    simp only [List.foldl_cons] at hep
    exact List.mem_of_mem_filter (ih _ ep hep)

/-- Round and delay accounting of the Tier-2 loop on the concrete attempt
list `[0, 1, 2, 3]`. -/
theorem tier2Go_rounds (scan : Nat → FsPath → Except String ScanPathResponse)
    (acc : SMap) (remaining : List (ScanEvent × FsPath)) :
    (tier2Go scan [0, 1, 2, 3] acc remaining).2.2.1 ≤ 4 ∧
    (tier2Go scan [0, 1, 2, 3] acc remaining).2.2.2 =
      backoffDelays.take ((tier2Go scan [0, 1, 2, 3] acc remaining).2.2.1 - 1) ∧
    (remaining = [] → (tier2Go scan [0, 1, 2, 3] acc remaining).2.2.1 = 0) ∧
    ((tier2Go scan [0, 1, 2, 3] acc remaining).2.2.1 < 4 →
      (tier2Go scan [0, 1, 2, 3] acc remaining).2.1 = []) := by
  by_cases h0 : remaining.isEmpty
  · have he : remaining = [] := List.isEmpty_iff.mp h0
    subst he
    simp [tier2Go]
  · have he : ¬remaining = [] := fun hh => h0 (by simp [hh])
    set r1 := tier2Round (scan 0) acc remaining with hr1
    by_cases h1 : r1.2.isEmpty
    · simp [tier2Go, h0, h1, ← hr1, backoffDelays, List.isEmpty_iff.mp h1, he]
    · set r2 := tier2Round (scan 1) r1.1 r1.2 with hr2
      by_cases h2 : r2.2.isEmpty
      · simp [tier2Go, h0, h1, h2, ← hr1, ← hr2, backoffDelays,
          List.isEmpty_iff.mp h2, he]
      · set r3 := tier2Round (scan 2) r2.1 r2.2 with hr3
        by_cases h3 : r3.2.isEmpty
        · simp [tier2Go, h0, h1, h2, h3, ← hr1, ← hr2, ← hr3, backoffDelays,
            List.isEmpty_iff.mp h3, he]
        · set r4 := tier2Round (scan 3) r3.1 r3.2 with hr4
          simp [tier2Go, h0, h1, h2, h3, ← hr1, ← hr2, ← hr3, ← hr4,
            backoffDelays, he]

/-! ## Lemmas about intake -/

theorem intake_spec (libraries : List Library) (evs : List ScanEvent) :
    goodMap (intake libraries evs).1 (evs.map (fun ev => ev.id)) ∧
    ∀ ep ∈ (intake libraries evs).2, ep.1 ∈ evs ∧ ep.2 = ep.1.path := by
  have general : ∀ (l : List ScanEvent) (st : SMap × List (ScanEvent × FsPath))
      (ids : List String),
      (∀ ev ∈ l, ev.id ∈ ids ∧ ev ∈ evs) → goodMap st.1 ids →
      (∀ ep ∈ st.2, ep.1 ∈ evs ∧ ep.2 = ep.1.path) →
      goodMap (l.foldl (fun st ev =>
        if (get_libraries libraries ev.path).isEmpty then
          (mapInsert st.1 ev.id true, st.2)
        else (st.1, st.2 ++ [(ev, ev.path)])) st).1 ids ∧
      ∀ ep ∈ (l.foldl (fun st ev =>
        if (get_libraries libraries ev.path).isEmpty then
          (mapInsert st.1 ev.id true, st.2)
        else (st.1, st.2 ++ [(ev, ev.path)])) st).2,
        ep.1 ∈ evs ∧ ep.2 = ep.1.path := by
    intro l
    induction l with
    | nil =>
      intro st ids _ hm hsub
      exact ⟨hm, hsub⟩
    | cons ev rest ih =>
      intro st ids hl hm hsub
      simp only [List.foldl_cons]
      by_cases h : (get_libraries libraries ev.path).isEmpty
      · rw [if_pos h]
        exact ih _ _ (fun e he => hl e (by simp [he]))
          (goodMap_insert _ _ _ _ hm (hl ev (by simp)).1) hsub
      · rw [if_neg h]
        apply ih (st.1, st.2 ++ [(ev, ev.path)]) ids
          (fun e he => hl e (by simp [he])) hm
        intro ep hep
        rcases List.mem_append.mp hep with hq | hq
        · exact hsub ep hq
        · simp only [List.mem_singleton] at hq
          subst hq
          exact ⟨(hl ev (by simp)).2, rfl⟩
  exact general evs ([], []) _ (fun e he => ⟨List.mem_map.mpr ⟨e, he, rfl⟩, he⟩)
    (goodMap_nil _) (by simp)

/-! ## Lemmas about the Tier-3 consumer loop -/

theorem getItemsGo_notfound (items : List Item) (events : List ScanEvent)
    (fa : List (ScanEvent × Item)) (nf : List ScanEvent) :
    ∀ e ∈ (getItemsGo items events fa nf).2, e ∈ nf := by
  induction items generalizing fa nf with
  | nil => simp [getItemsGo]
  | cons item rest ih =>
    intro e he
    rcases hf : events.find? (fun ev => decide (item.path = some ev.path)) with
        _ | ev
    · simp only [getItemsGo, hf] at he
      exact ih fa nf e he
    · simp only [getItemsGo, hf] at he
      by_cases hemp : (nf.filter (fun e => !(decide (e.id = ev.id)))).isEmpty
      · rw [if_pos hemp] at he
        exact List.mem_of_mem_filter he
      · rw [if_neg hemp] at he
        exact List.mem_of_mem_filter (ih _ _ e he)

theorem getItemsGo_found (items : List Item) (events : List ScanEvent)
    (fa : List (ScanEvent × Item)) (nf : List ScanEvent) :
    ∀ p ∈ (getItemsGo items events fa nf).1, p ∈ fa ∨ p.1 ∈ events := by
  induction items generalizing fa nf with
  | nil =>
    intro p hp
    simp only [getItemsGo] at hp
    exact Or.inl hp
  | cons item rest ih =>
    intro p hp
    rcases hf : events.find? (fun ev => decide (item.path = some ev.path)) with
        _ | ev
    · simp only [getItemsGo, hf] at hp
      exact ih fa nf p hp
    · simp only [getItemsGo, hf] at hp
      have hev : ev ∈ events := List.mem_of_find?_eq_some hf
      by_cases hemp : (nf.filter (fun e => !(decide (e.id = ev.id)))).isEmpty
      · rw [if_pos hemp] at hp
        rcases List.mem_append.mp hp with h | h
        · exact Or.inl h
        · simp only [List.mem_singleton] at h
          exact Or.inr (h ▸ hev)
      · rw [if_neg hemp] at hp
        rcases ih _ _ p hp with h | h
        · rcases List.mem_append.mp h with h2 | h2
          · exact Or.inl h2
          · simp only [List.mem_singleton] at h2
            exact Or.inr (h2 ▸ hev)
        · exact Or.inr h

theorem getItemsGo_found_mono (items : List Item) (events : List ScanEvent)
    (fa : List (ScanEvent × Item)) (nf : List ScanEvent) :
    ∀ p ∈ fa, p ∈ (getItemsGo items events fa nf).1 := by
  induction items generalizing fa nf with
  | nil => simp [getItemsGo]
  | cons item rest ih =>
    intro p hp
    rcases hf : events.find? (fun ev => decide (item.path = some ev.path)) with
        _ | ev
    · simp only [getItemsGo, hf]
      exact ih fa nf p hp
    · simp only [getItemsGo, hf]
      by_cases hemp : (nf.filter (fun e => !(decide (e.id = ev.id)))).isEmpty
      · rw [if_pos hemp]
        exact List.mem_append.mpr (Or.inl hp)
      · rw [if_neg hemp]
        exact ih _ _ p (List.mem_append.mpr (Or.inl hp))

/-- An id present in the pending set is never lost: at the end it is either
matched by some found pair or still pending. -/
theorem getItemsGo_cover (items : List Item) (events : List ScanEvent)
    (fa : List (ScanEvent × Item)) (nf : List ScanEvent) (k : String) :
    (∃ e ∈ nf, e.id = k) →
    (∃ p ∈ (getItemsGo items events fa nf).1, p.1.id = k) ∨
    (∃ e ∈ (getItemsGo items events fa nf).2, e.id = k) := by
  induction items generalizing fa nf with
  | nil =>
    intro h
    exact Or.inr (by simpa [getItemsGo] using h)
  | cons item rest ih =>
    intro h
    obtain ⟨e, he, hek⟩ := h
    rcases hf : events.find? (fun ev => decide (item.path = some ev.path)) with
        _ | ev
    · simp only [getItemsGo, hf]
      exact ih fa nf ⟨e, he, hek⟩
    · simp only [getItemsGo, hf]
      by_cases hid : e.id = ev.id
      · left
        have hmem : (ev, item) ∈ fa ++ [(ev, item)] := by simp
        by_cases hemp : (nf.filter (fun e => !(decide (e.id = ev.id)))).isEmpty
        · rw [if_pos hemp]
          exact ⟨(ev, item), hmem, by simpa [hid] using hek⟩
        · rw [if_neg hemp]
          exact ⟨(ev, item), getItemsGo_found_mono _ _ _ _ _ hmem,
            by simpa [hid] using hek⟩
      · have hin : e ∈ nf.filter (fun e => !(decide (e.id = ev.id))) :=
          List.mem_filter.mpr ⟨he, by simpa using hid⟩
        by_cases hemp : (nf.filter (fun e => !(decide (e.id = ev.id)))).isEmpty
        · rw [List.isEmpty_iff.mp hemp] at hin
          simp at hin
        · rw [if_neg hemp]
          exact ih _ _ ⟨e, hin, hek⟩

/-! ## Lemmas about one Tier-3 group -/

theorem foldInsertFalse_lookup (nf : List ScanEvent) (m : SMap) (k : String) :
    mapLookup (nf.foldl (fun mm e => mapInsert mm e.id false) m) k =
      if nf.any (fun e => decide (e.id = k)) then some false
      else mapLookup m k := by
  induction nf generalizing m with
  | nil => simp
  | cons e rest ih =>
    simp only [List.foldl_cons, List.any_cons]
    rw [ih]
    by_cases he : e.id = k
    · by_cases hr : rest.any (fun e => decide (e.id = k)) <;>
        simp [he, hr, mapLookup_insert]
    · by_cases hr : rest.any (fun e => decide (e.id = k)) <;>
        simp [he, hr, mapLookup_insert]

theorem foundFold_lookup (o : Oracles) (found : List (ScanEvent × Item))
    (m : SMap) (tr : List String) (k : String) :
    mapLookup ((found.foldl (fun (st : SMap × List String) p =>
        match o.refresh p.2 with
        | .ok _ => (touchSucceed st.1 p.1.id, st.2 ++ [p.2.id])
        | .error _ => (mapInsert st.1 p.1.id false, st.2 ++ [p.2.id]))
      (m, tr)).1) k =
      if found.any (fun p => decide (p.1.id = k)) then
        some ((mapLookup m k).getD true &&
          (found.filter (fun p => decide (p.1.id = k))).all
            (fun p => (o.refresh p.2).isOk))
      else mapLookup m k := by
  induction found generalizing m tr with
  | nil => simp
  | cons p rest ih =>
    simp only [List.foldl_cons, List.any_cons, List.filter_cons]
    by_cases hp : p.1.id = k
    · rcases hr : o.refresh p.2 with e | u
      · simp only [hr]
        rw [ih]
        by_cases hrest : rest.any (fun p => decide (p.1.id = k)) <;>
          simp [hp, hrest, mapLookup_insert, hr, Except.isOk, Except.toBool]
      · simp only [hr]
        rw [ih]
        by_cases hrest : rest.any (fun p => decide (p.1.id = k))
        · simp [hp, hrest, mapLookup_touch, hr, Except.isOk, Except.toBool,
            Bool.and_assoc]
        · have hfil : rest.filter (fun p => decide (p.1.id = k)) = [] := by
            rw [List.filter_eq_nil_iff]
            intro a ha hfa
            exact hrest (List.any_eq_true.mpr ⟨a, ha, hfa⟩)
          simp [hp, hrest, mapLookup_touch, hr, hfil, Except.isOk,
            Except.toBool]
    · have hd : decide (p.1.id = k) = false := by simp [hp]
      rcases hr : o.refresh p.2 with e | u
      · simp only [hr]
        rw [ih, hd, Bool.false_or]
        by_cases hrest : rest.any (fun p => decide (p.1.id = k)) <;>
          simp [hrest, mapLookup_insert, hp]
      · simp only [hr]
        rw [ih, hd, Bool.false_or]
        by_cases hrest : rest.any (fun p => decide (p.1.id = k)) <;>
          simp [hrest, mapLookup_touch, hp]

theorem foundFold_trace (o : Oracles) (found : List (ScanEvent × Item))
    (m : SMap) (tr : List String) :
    ((found.foldl (fun (st : SMap × List String) p =>
        match o.refresh p.2 with
        | .ok _ => (touchSucceed st.1 p.1.id, st.2 ++ [p.2.id])
        | .error _ => (mapInsert st.1 p.1.id false, st.2 ++ [p.2.id]))
      (m, tr)).2) = tr ++ found.map (fun p => p.2.id) := by
  induction found generalizing m tr with
  | nil => simp
  | cons p rest ih =>
    simp only [List.foldl_cons, List.map_cons]
    rcases hr : o.refresh p.2 with e | u <;> simp [hr, ih]

/-- The disposition-map effect of one `to_find` entry, keyed pointwise:
an id the entry involves gets `previous AND verdict` (with `true` for a
missing previous entry); other ids are untouched. -/
theorem processGroup_lookup (o : Oracles) (g : Library × List ScanEvent)
    (m : SMap) (pr : SMap × List String) (k : String)
    (h : processGroup o g m = .ok pr) :
    mapLookup pr.1 k =
      if groupInvolves g k then
        some ((mapLookup m k).getD true && groupVerdict o g k)
      else mapLookup m k := by
  rcases hf : o.fetch g.1 with e | stream
  · simp [processGroup, hf] at h
  · simp only [processGroup, hf, Except.ok.injEq] at h
    subst h
    dsimp only
    rw [foldInsertFalse_lookup, foundFold_lookup]
    simp only [groupVerdict, groupInvolves, hf]
    by_cases hnf : (get_items stream g.2).2.any (fun e => decide (e.id = k))
    · obtain ⟨e, he, hek⟩ := List.any_eq_true.mp hnf
      have hin : e ∈ g.2 := getItemsGo_notfound _ _ _ _ e he
      have hinv : g.2.any (fun e => decide (e.id = k)) = true :=
        List.any_eq_true.mpr ⟨e, hin, hek⟩
      simp [hnf, hinv]
    · by_cases hfd : (get_items stream g.2).1.any (fun p => decide (p.1.id = k))
      · obtain ⟨p, hp, hpk⟩ := List.any_eq_true.mp hfd
        have hin : p.1 ∈ g.2 := by
          rcases getItemsGo_found _ _ _ _ p hp with h2 | h2
          · simp at h2
          · exact h2
        have hinv : g.2.any (fun e => decide (e.id = k)) = true :=
          List.any_eq_true.mpr ⟨p.1, hin, hpk⟩
        simp [hnf, hfd, hinv]
      · have hninv : g.2.any (fun e => decide (e.id = k)) = false := by
          rw [List.any_eq_false]
          intro e he
          simp only [decide_eq_true_eq]
          intro hek
          rcases getItemsGo_cover stream.delivered g.2 [] g.2 k ⟨e, he, hek⟩
              with hc | hc
          · obtain ⟨p, hp, hpk⟩ := hc
            have hany : (get_items stream g.2).1.any
                (fun p => decide (p.1.id = k)) = true :=
              List.any_eq_true.mpr ⟨p, hp, by simp [hpk]⟩
            simp [hany] at hfd
          · obtain ⟨e2, he2, he2k⟩ := hc
            have hany : (get_items stream g.2).2.any
                (fun e => decide (e.id = k)) = true :=
              List.any_eq_true.mpr ⟨e2, he2, by simp [he2k]⟩
            simp [hany] at hnf
        simp [hnf, hfd, hninv]

/-- One `to_find` entry issues exactly one refresh call per found pair. -/
theorem processGroup_trace (o : Oracles) (g : Library × List ScanEvent)
    (m : SMap) (pr : SMap × List String)
    (h : processGroup o g m = .ok pr) : pr.2 = groupCalls o g := by
  rcases hf : o.fetch g.1 with e | stream
  · simp [processGroup, hf] at h
  · simp only [processGroup, hf, Except.ok.injEq] at h
    subst h
    dsimp only
    rw [foundFold_trace]
    simp [groupCalls, hf]

theorem foldInsertFalse_good (nf : List ScanEvent) (m : SMap)
    (ids : List String) (hm : goodMap m ids)
    (hnf : ∀ e ∈ nf, e.id ∈ ids) :
    goodMap (nf.foldl (fun mm e => mapInsert mm e.id false) m) ids := by
  induction nf generalizing m with
  | nil => exact hm
  | cons e rest ih =>
    simp only [List.foldl_cons]
    exact ih _ (goodMap_insert _ _ _ _ hm (hnf e (by simp)))
      (fun e2 he2 => hnf e2 (by simp [he2]))

theorem processGroup_good (o : Oracles) (g : Library × List ScanEvent)
    (m : SMap) (pr : SMap × List String) (ids : List String)
    (hm : goodMap m ids) (hg : ∀ e ∈ g.2, e.id ∈ ids)
    (h : processGroup o g m = .ok pr) : goodMap pr.1 ids := by
  rcases hf : o.fetch g.1 with e | stream
  · simp [processGroup, hf] at h
  · simp only [processGroup, hf, Except.ok.injEq] at h
    subst h
    dsimp only
    apply foldInsertFalse_good
    · have general : ∀ (l : List (ScanEvent × Item)) (m0 : SMap)
          (tr : List String), goodMap m0 ids → (∀ p ∈ l, p.1.id ∈ ids) →
          goodMap ((l.foldl (fun (st : SMap × List String) p =>
            match o.refresh p.2 with
            | .ok _ => (touchSucceed st.1 p.1.id, st.2 ++ [p.2.id])
            | .error _ => (mapInsert st.1 p.1.id false, st.2 ++ [p.2.id]))
          (m0, tr)).1) ids := by
        intro l
        induction l with
        | nil => intro m0 tr hm0 _; exact hm0
        | cons p rest ih =>
          intro m0 tr hm0 hl
          rcases hr : o.refresh p.2 with e2 | u <;>
            simp only [List.foldl_cons, hr]
          · exact ih _ _ (goodMap_insert _ _ _ _ hm0 (hl p (by simp)))
              (fun q hq => hl q (by simp [hq]))
          · exact ih _ _ (goodMap_touch _ _ _ hm0 (hl p (by simp)))
              (fun q hq => hl q (by simp [hq]))
      apply general _ _ _ hm
      intro p hp
      rcases getItemsGo_found _ _ _ _ p hp with h2 | h2
      · simp at h2
      · exact hg p.1 h2
    · intro e2 he2
      exact hg e2 (getItemsGo_notfound _ _ _ _ e2 he2)

/-! ## Lemmas about the Tier-3 group loop -/

theorem tier3_good (o : Oracles) (groups : List (Library × List ScanEvent))
    (m : SMap) (pr : SMap × List String) (ids : List String)
    (hm : goodMap m ids) (hg : ∀ g ∈ groups, ∀ e ∈ g.2, e.id ∈ ids)
    (h : tier3 o groups m = .ok pr) : goodMap pr.1 ids := by
  induction groups generalizing m pr with
  | nil =>
    simp only [tier3, Except.ok.injEq] at h
    subst h
    exact hm
  | cons g gs ih =>
    simp only [tier3] at h
    rcases hpg : processGroup o g m with e | q
    · simp only [hpg] at h
      simp at h
    · simp only [hpg] at h
      rcases ht : tier3 o gs q.1 with e | q2
      · simp only [ht] at h
        simp at h
      · simp only [ht, Except.ok.injEq] at h
        subst h
        exact ih q.1 (q2.1, q2.2)
          (processGroup_good o g m q ids hm (hg g (by simp)) hpg)
          (fun g2 hg2 => hg g2 (by simp [hg2]))
          (by simpa using ht)

theorem tier3_lookup (o : Oracles) (groups : List (Library × List ScanEvent))
    (m : SMap) (pr : SMap × List String) (k : String)
    (h : tier3 o groups m = .ok pr) :
    mapLookup pr.1 k = groups.foldl (fun v g =>
      if groupInvolves g k then some (v.getD true && groupVerdict o g k)
      else v) (mapLookup m k) := by
  induction groups generalizing m pr with
  | nil =>
    simp only [tier3, Except.ok.injEq] at h
    subst h
    simp
  | cons g gs ih =>
    simp only [tier3] at h
    rcases hpg : processGroup o g m with e | q
    · simp only [hpg] at h
      simp at h
    · simp only [hpg] at h
      rcases ht : tier3 o gs q.1 with e | q2
      · simp only [ht] at h
        simp at h
      · simp only [ht, Except.ok.injEq] at h
        subst h
        dsimp only
        simp only [List.foldl_cons]
        rw [ih q.1 (q2.1, q2.2) (by simpa using ht)]
        rw [processGroup_lookup o g m q k hpg]

theorem tier3_trace (o : Oracles) (groups : List (Library × List ScanEvent))
    (m : SMap) (pr : SMap × List String)
    (h : tier3 o groups m = .ok pr) :
    pr.2 = (groups.map (groupCalls o)).flatten := by
  induction groups generalizing m pr with
  | nil =>
    simp only [tier3, Except.ok.injEq] at h
    subst h
    simp
  | cons g gs ih =>
    simp only [tier3] at h
    rcases hpg : processGroup o g m with e | q
    · simp only [hpg] at h
      simp at h
    · simp only [hpg] at h
      rcases ht : tier3 o gs q.1 with e | q2
      · simp only [ht] at h
        simp at h
      · simp only [ht, Except.ok.injEq] at h
        subst h
        dsimp only
        simp only [List.map_cons, List.flatten_cons]
        rw [← processGroup_trace o g m q hpg,
          ← ih q.1 (q2.1, q2.2) (by simpa using ht)]

theorem verdictFold_some (o : Oracles) (k : String)
    (groups : List (Library × List ScanEvent)) :
    ∀ b : Bool, groups.foldl (fun v g =>
        if groupInvolves g k then some (v.getD true && groupVerdict o g k)
        else v) (some b) =
      some (b && groups.all (fun g =>
        !groupInvolves g k || groupVerdict o g k)) := by
  induction groups with
  | nil => intro b; simp
  | cons g gs ih =>
    intro b
    by_cases hi : groupInvolves g k <;>
      simp [hi, ih, Bool.and_assoc]

theorem verdictFold_none (o : Oracles) (k : String)
    (groups : List (Library × List ScanEvent))
    (h : ∃ g ∈ groups, groupInvolves g k = true) :
    groups.foldl (fun v g =>
        if groupInvolves g k then some (v.getD true && groupVerdict o g k)
        else v) none =
      some (groups.all (fun g =>
        !groupInvolves g k || groupVerdict o g k)) := by
  induction groups with
  | nil => simp at h
  | cons g gs ih =>
    by_cases hi : groupInvolves g k
    · simp only [List.foldl_cons, hi, if_pos, Option.getD_none, Bool.true_and]
      rw [verdictFold_some]
      simp [hi]
    · simp only [List.foldl_cons, hi, Bool.false_eq_true, if_false]
      obtain ⟨g2, hg2, hinv⟩ := h
      rcases List.mem_cons.mp hg2 with hq | hq
      · rw [hq] at hinv
        exact absurd hinv (by simpa using hi)
      · rw [ih ⟨g2, hq, hinv⟩]
        simp [hi]

/-! ## Lemmas about `to_find` construction -/

theorem groupPush_events (g2 : List (Library × List ScanEvent))
    (lib : Library) (ev : ScanEvent) :
    ∀ p ∈ groupPush g2 lib ev, ∀ e ∈ p.2,
      (∃ q ∈ g2, e ∈ q.2) ∨ e = ev := by
  intro p hp e he
  by_cases hc : g2.any (fun p => decide (p.1 = lib))
  · simp only [groupPush, hc, if_pos] at hp
    obtain ⟨q, hq, hqe⟩ := List.mem_map.mp hp
    by_cases hql : q.1 = lib
    · rw [if_pos hql] at hqe
      subst hqe
      simp only [List.mem_append, List.mem_singleton] at he
      rcases he with he | he
      · exact Or.inl ⟨q, hq, he⟩
      · exact Or.inr he
    · rw [if_neg hql] at hqe
      subst hqe
      exact Or.inl ⟨q, hq, he⟩
  · simp only [groupPush, hc, Bool.false_eq_true, if_false] at hp
    rcases List.mem_append.mp hp with hq | hq
    · exact Or.inl ⟨p, hq, he⟩
    · simp only [List.mem_singleton] at hq
      subst hq
      simp only [List.mem_singleton] at he
      exact Or.inr he

theorem buildToFind_events (libraries : List Library)
    (rem : List (ScanEvent × FsPath)) :
    ∀ g ∈ buildToFind libraries rem, ∀ e ∈ g.2, ∃ ep ∈ rem, ep.1 = e := by
  have inner : ∀ (L : List Library) (ev : ScanEvent)
      (g0 : List (Library × List ScanEvent))
      (P : ScanEvent → Prop), (∀ p ∈ g0, ∀ e ∈ p.2, P e) → P ev →
      ∀ p ∈ L.foldl (fun gg lib => groupPush gg lib ev) g0, ∀ e ∈ p.2, P e := by
    intro L
    induction L with
    | nil => intro ev g0 P h0 _ p hp e he; exact h0 p hp e he
    | cons lib L2 ih =>
      intro ev g0 P h0 hev p hp e he
      refine ih ev (groupPush g0 lib ev) P ?_ hev p hp e he
      intro q hq e2 he2
      rcases groupPush_events g0 lib ev q hq e2 he2 with h2 | h2
      · obtain ⟨r, hr, hre⟩ := h2
        exact h0 r hr e2 hre
      · exact h2 ▸ hev
  have outer : ∀ (l : List (ScanEvent × FsPath))
      (g0 : List (Library × List ScanEvent)),
      (∀ ep ∈ l, ep ∈ rem) →
      (∀ p ∈ g0, ∀ e ∈ p.2, ∃ ep ∈ rem, ep.1 = e) →
      ∀ p ∈ l.foldl (fun g ep =>
          (get_libraries libraries ep.2).foldl
            (fun g2 lib => groupPush g2 lib ep.1) g) g0,
        ∀ e ∈ p.2, ∃ ep ∈ rem, ep.1 = e := by
    intro l
    induction l with
    | nil => intro g0 _ h0 p hp e he; exact h0 p hp e he
    | cons ep l2 ih =>
      intro g0 hl h0 p hp e he
      refine ih _ (fun q hq => hl q (by simp [hq])) ?_ p hp e he
      intro q hq e2 he2
      exact inner (get_libraries libraries ep.2) ep.1 g0 _ h0
        ⟨ep, hl ep (by simp), rfl⟩ q hq e2 he2
  intro g hg e he
  exact outer rem [] (fun ep hep => hep) (by simp) g hg e he

/-! ## Process-level assembly -/

theorem foldInsertFalsePairs_good (l : List (ScanEvent × FsPath)) (m : SMap)
    (ids : List String) (hm : goodMap m ids)
    (hl : ∀ ep ∈ l, ep.1.id ∈ ids) :
    goodMap (l.foldl (fun mm ep => mapInsert mm ep.1.id false) m) ids := by
  induction l generalizing m with
  | nil => exact hm
  | cons ep rest ih =>
    simp only [List.foldl_cons]
    exact ih _ (goodMap_insert _ _ _ _ hm (hl ep (by simp)))
      (fun q hq => hl q (by simp [hq]))

theorem tier3OrFail_good (cfg : EmbyCfg) (o : Oracles)
    (libraries : List Library) (succ2 : SMap)
    (remaining2 : List (ScanEvent × FsPath)) (ids : List String) (m : SMap)
    (hm : goodMap succ2 ids) (hr : ∀ ep ∈ remaining2, ep.1.id ∈ ids)
    (h : tier3OrFail cfg o libraries succ2 remaining2 = .ok m) :
    goodMap m ids := by
  unfold tier3OrFail at h
  by_cases h1 : (!remaining2.isEmpty && cfg.refresh_metadata) = true
  · rw [if_pos h1] at h
    rcases ht : tier3 o (buildToFind libraries remaining2) succ2 with e | pr
    · simp only [ht] at h
      simp at h
    · simp only [ht, Except.ok.injEq] at h
      subst h
      apply tier3_good o _ _ _ ids hm _ ht
      intro g hg e he
      obtain ⟨ep, hep, hepe⟩ := buildToFind_events libraries remaining2 g hg e he
      exact hepe ▸ hr ep hep
  · rw [if_neg h1] at h
    by_cases h2 : (!remaining2.isEmpty) = true
    · rw [if_pos h2, Except.ok.injEq] at h
      subst h
      exact foldInsertFalsePairs_good _ _ _ hm hr
    · rw [if_neg h2, Except.ok.injEq] at h
      subst h
      exact hm

/-- Whatever `process` returns on success is a duplicate-free list of input
event ids. -/
theorem process_ok_ids (cfg : EmbyCfg) (o : Oracles) (evs : List ScanEvent)
    (out : List String) (h : process cfg o evs = .ok out) :
    out.Nodup ∧ ∀ i ∈ out, ∃ ev ∈ evs, ev.id = i := by
  rcases hlibs : o.libs with e | libraries
  · simp [process, hlibs] at h
  · simp only [process, hlibs] at h
    by_cases hemp : (intake libraries evs).2.isEmpty
    · rw [if_pos hemp, Except.ok.injEq] at h
      subst h
      simp
    · rw [if_neg hemp] at h
      have hintake := intake_spec libraries evs
      have hids : ∀ ep ∈ (intake libraries evs).2,
          ep.1.id ∈ evs.map (fun ev => ev.id) := by
        intro ep hep
        exact List.mem_map.mpr ⟨ep.1, (hintake.2 ep hep).1, rfl⟩
      set t1 := match targeted_scan_batch
          (o.batchHttp ((intake libraries evs).2.map Prod.snd)) with
        | .ok batch_result =>
          tier1 batch_result (intake libraries evs).1 (intake libraries evs).2
        | .error _ => ((intake libraries evs).1, (intake libraries evs).2)
        with ht1
      have ht1good : goodMap t1.1 (evs.map (fun ev => ev.id)) ∧
          ∀ ep ∈ t1.2, ep.1.id ∈ evs.map (fun ev => ev.id) := by
        rw [ht1]
        rcases targeted_scan_batch
            (o.batchHttp ((intake libraries evs).2.map Prod.snd)) with e | br
        · exact ⟨hintake.1, hids⟩
        · constructor
          · exact tier1_good br _ _ _ hintake.1 hids
          · intro ep hep
            rw [tier1_snd] at hep
            exact hids ep (List.mem_of_mem_filter hep)
      set t2 := tier2Go (fun n p => targeted_scan (o.scanHttp n p))
        [0, 1, 2, 3] t1.1 t1.2 with ht2
      have ht2good : goodMap t2.1 (evs.map (fun ev => ev.id)) ∧
          ∀ ep ∈ t2.2.1, ep.1.id ∈ evs.map (fun ev => ev.id) := by
        rw [ht2]
        constructor
        · exact tier2Go_good _ _ _ _ _ ht1good.1 ht1good.2
        · intro ep hep
          exact ht1good.2 ep (tier2Go_remaining_sub _ _ _ _ ep hep)
      rcases h3 : tier3OrFail cfg o libraries t2.1 t2.2.1 with e | m
      · simp only [h3] at h
        simp at h
      · simp only [h3, Except.ok.injEq] at h
        subst h
        have hgood := tier3OrFail_good cfg o libraries t2.1 t2.2.1 _ m
          ht2good.1 ht2good.2 h3
        obtain ⟨hn, hmem⟩ := goodMap_trueKeys m _ hgood
        refine ⟨hn, fun i hi => ?_⟩
        obtain ⟨ev, hev, hevi⟩ := List.mem_map.mp (hmem i hi)
        exact ⟨ev, hev, hevi⟩

/-! ## Claim theorems -/

/-- C1: when `process` returns `Ok`, every input event id has exactly one
final disposition — the returned succeeded-id list is duplicate-free and
drawn from the input ids (everything else is implicitly failed) — and the
set of events handed to each later tier is exactly the subset the earlier
tier left unresolved: Tier 2 receives the Tier-1 events not classified
succeeded by the batch map, and Tier 3 receives the Tier-2 events whose
individual calls errored in every issued round. -/
theorem claim1_exactly_one_disposition :
    ∀ (cfg : EmbyCfg) (o : Oracles) (evs : List ScanEvent) (out : List String),
      process cfg o evs = .ok out →
      (out.Nodup ∧ ∀ i ∈ out, ∃ ev ∈ evs, ev.id = i) ∧
      (∀ (br : ScanPathsResponse) (succ : SMap)
        (aw : List (ScanEvent × FsPath)),
        (tier1 br succ aw).2 =
          aw.filter (fun ep => !tier1Success (buildResultMap br.results ep.2))) ∧
      (∀ (scan : Nat → FsPath → Except String ScanPathResponse) (acc : SMap)
        (rem : List (ScanEvent × FsPath)),
        (tier2Go scan [0, 1, 2, 3] acc rem).2.1 =
          [0, 1, 2, 3].foldl
            (fun r a => r.filter (fun ep => !(scan a ep.2).isOk)) rem) := by
  intro cfg o evs out h
  exact ⟨process_ok_ids cfg o evs out h, tier1_snd,
    fun scan acc rem => tier2Go_remaining scan [0, 1, 2, 3] acc rem⟩

/-- Witness for C1 at a concrete world (one event, no libraries). -/
theorem claim1_witness :
    ([] : List String).Nodup ∧
    ∀ i ∈ ([] : List String), ∃ ev ∈ [evA], ev.id = i :=
  (claim1_exactly_one_disposition cfgT noNetOracle [evA] [] rfl).1

/-- C2 (code bug): an event matching zero libraries is recorded `true` in
the success map by the intake loop, but when every input event is such an
event `process` takes the `all_with_paths.is_empty()` early return and
returns the empty id list, dropping the recorded disposition. -/
theorem claim2_unmatched_event_dropped :
    (intake [] [evA]).1 = [("e1", true)] ∧
    process cfgT noNetOracle [evA] = .ok [] := ⟨rfl, rfl⟩

/-- C3 (counterexample): in a Tier-2 round, an event whose call returns a
parsed result with status `Failed` — a status in neither of the Tier-1
success classes — is nevertheless dispositioned `Succeeded` and removed
from the remaining set, refuting the claimed if-and-only-if with the
Tier-1 classification. -/
theorem claim3_counterexample :
    tier2Round scanOkBad [] [(evA, ["m", "x"])] = ([("e1", true)], []) ∧
    tier1Success (some badStatusResp) = false := ⟨rfl, rfl⟩

/-- C3 (amended): in every Tier-2 round, a remaining event is dispositioned
`Succeeded` iff its individual call returns any parsed result, regardless
of status; it stays in the remaining set iff the call errors. -/
theorem claim3_amended :
    ∀ (scan1 : FsPath → Except String ScanPathResponse) (acc : SMap)
      (rem : List (ScanEvent × FsPath)),
      (∀ k, mapLookup acc k ≠ some false) →
      (tier2Round scan1 acc rem).2 =
        rem.filter (fun ep => !(scan1 ep.2).isOk) ∧
      ∀ ep ∈ rem, (scan1 ep.2).isOk = true →
        mapLookup (tier2Round scan1 acc rem).1 ep.1.id = some true := by
  intro scan1 acc rem hacc
  exact ⟨tier2Round_snd scan1 acc rem, tier2Round_ok_true scan1 acc rem hacc⟩

/-- Witness for the amended C3 at a concrete round. -/
theorem claim3_witness :
    (tier2Round scanOkBad [] [(evA, ["m", "x"])]).2 = [] ∧
    mapLookup (tier2Round scanOkBad [] [(evA, ["m", "x"])]).1 "e1" =
      some true := by
  have h := claim3_amended scanOkBad [] [(evA, ["m", "x"])]
    (fun k => by simp [mapLookup])
  refine ⟨?_, h.2 (evA, ["m", "x"]) (by simp) rfl⟩
  rw [h.1]
  rfl

/-- C4 (code bug): a page fetch error inside the Tier-3 producer task is
swallowed — the consumer sees an exhausted stream, the event is
dispositioned failed individually and the run returns `Ok` — while only a
failure of `fetch_items` itself (before the task is spawned) aborts the
run with the library's name. -/
theorem claim4_fetch_error_swallowed :
    process cfgT errStreamOracle [evA] = .ok [] ∧
    process cfgT errFetchOracle [evA] =
      .error ("failed to fetch items for library: A") := ⟨rfl, rfl⟩

/-- C5 (counterexample): one event matching libraries `A`, `B`, `C`, with a
matching item in `A` and in `B` but none in `C`, and all refreshes
succeeding: Tier 3 issues two refresh calls (not exactly one), and the
event's disposition is failed — absence from candidate library `C`
overrides the successful refreshes. -/
theorem claim5_counterexample :
    tier3 cexOracle5 (buildToFind [libA, libB, libC] [(evA, ["m", "x"])]) [] =
      .ok ([("e1", false)], ["itA", "itB"]) ∧
    process cfgT cexOracle5 [evA] = .ok [] := ⟨rfl, rfl⟩

/-- C5 (amended): in Tier 3, one refresh call is issued per (library,
matching item) pair — an event enqueued against several libraries can
trigger several — and a leftover event's disposition is `Succeeded` iff
every candidate library containing it both matches it to items and has all
those refreshes succeed; absence from any candidate library's catalog, or
any failed refresh, makes the disposition `Failed`. -/
theorem claim5_amended :
    ∀ (o : Oracles) (groups : List (Library × List ScanEvent)) (m : SMap)
      (pr : SMap × List String) (k : String),
      tier3 o groups m = .ok pr →
      mapLookup m k = none →
      (∃ g ∈ groups, groupInvolves g k = true) →
      mapLookup pr.1 k = some (groups.all (fun g =>
        !groupInvolves g k || groupVerdict o g k)) ∧
      pr.2 = (groups.map (groupCalls o)).flatten := by
  intro o groups m pr k h hnone hinv
  refine ⟨?_, tier3_trace o groups m pr h⟩
  rw [tier3_lookup o groups m pr k h, hnone]
  exact verdictFold_none o k groups hinv

/-- Witness for the amended C5 at the concrete three-library world. -/
theorem claim5_witness :
    mapLookup [("e1", false)] "e1" =
      some ((buildToFind [libA, libB, libC] [(evA, ["m", "x"])]).all (fun g =>
        !groupInvolves g "e1" || groupVerdict cexOracle5 g "e1")) ∧
    (["itA", "itB"] : List String) =
      (((buildToFind [libA, libB, libC] [(evA, ["m", "x"])]).map
        (groupCalls cexOracle5)).flatten) :=
  claim5_amended cexOracle5 _ [] ([("e1", false)], ["itA", "itB"]) "e1" rfl rfl
    (by decide)

/-- C6: the item fetcher pages with fixed size 1000 at offset
page·pageSize, stops exactly after the first short page (every non-final
page is full, the final page holds `length mod 1000` items), issues
`length / 1000 + 1` requests — one extra, empty, page request when the
item count is an exact multiple of 1000 — and delivers the whole catalog. -/
theorem claim6_pagination :
    pageSize = 1000 ∧
    ∀ catalog : List Item,
      (fetchPages catalog 0).length = catalog.length / pageSize + 1 ∧
      (fetchPages catalog 0).map Prod.fst =
        (List.range (fetchPages catalog 0).length).map (fun i => i * pageSize) ∧
      (∀ p ∈ (fetchPages catalog 0).dropLast, p.2.length = pageSize) ∧
      ((fetchPages catalog 0).getLastD (0, [])).2.length =
        catalog.length % pageSize ∧
      (catalog.length % pageSize = 0 →
        ((fetchPages catalog 0).getLastD (0, [])).2 = []) ∧
      (fetchPages catalog 0).foldl (fun acc p => acc ++ p.2) [] = catalog := by
  refine ⟨rfl, fun catalog => ⟨fetchPages_length catalog 0, ?_,
    fetchPages_full_pages catalog 0, fetchPages_last catalog 0 (0, []), ?_,
    fetchPages_join catalog 0⟩⟩
  · rw [fetchPages_offsets]
    apply List.map_congr_left
    intro a _
    omega
  · intro hmod
    have := fetchPages_last catalog 0 (0, [])
    rw [hmod] at this
    exact List.eq_nil_of_length_eq_zero this

/-- Witness for C6 at the empty catalog (an exact multiple of the page
size: one empty page request terminates the loop). -/
theorem claim6_witness :
    ((fetchPages [] 0).getLastD (0, [])).2 = [] ∧
    (fetchPages [] 0).length = 0 / pageSize + 1 :=
  ⟨(claim6_pagination.2 []).2.2.2.2.1 rfl, (claim6_pagination.2 []).1⟩

/-- C7: Tier 2 issues at most 4 rounds; the delays slept before the rounds
after the first are the prefix 5, 15, 30 matching the number of rounds
issued; no round is issued when nothing remains; and fewer than 4 rounds
are issued only when the remaining set has been emptied. -/
theorem claim7_tier2_rounds :
    backoffDelays = [5, 15, 30] ∧
    ∀ (scan : Nat → FsPath → Except String ScanPathResponse) (acc : SMap)
      (rem : List (ScanEvent × FsPath)),
      (tier2Go scan [0, 1, 2, 3] acc rem).2.2.1 ≤ 4 ∧
      (tier2Go scan [0, 1, 2, 3] acc rem).2.2.2 =
        backoffDelays.take ((tier2Go scan [0, 1, 2, 3] acc rem).2.2.1 - 1) ∧
      (rem = [] → (tier2Go scan [0, 1, 2, 3] acc rem).2.2.1 = 0) ∧
      ((tier2Go scan [0, 1, 2, 3] acc rem).2.2.1 < 4 →
        (tier2Go scan [0, 1, 2, 3] acc rem).2.1 = []) :=
  ⟨rfl, fun scan acc rem => tier2Go_rounds scan acc rem⟩

/-- Witness for C7: an always-erroring world issues all four rounds and
sleeps 5, 15, 30; an empty remaining set issues none. -/
theorem claim7_witness :
    (tier2Go (fun _ _ => .error ("x")) [0, 1, 2, 3] []
      [(evA, ["m", "x"])]).2.2.2 = [5, 15, 30] ∧
    (tier2Go (fun _ _ => .error ("x")) [0, 1, 2, 3] [] []).2.2.1 = 0 := by
  constructor
  · have h := (claim7_tier2_rounds.2 (fun _ _ => .error ("x")) []
      [(evA, ["m", "x"])]).2.1
    rw [h]
    rfl
  · exact (claim7_tier2_rounds.2 (fun _ _ => .error ("x")) [] []).2.2.1 rfl

/-- C8: a Tier-1 batch result is keyed by its path field when non-empty and
by its message field otherwise; every map hit is a batch result stored
under its own key; an event is classified by the map entry at its rewritten
path; and an event with no matching entry joins the remaining set. -/
theorem claim8_tier1_matching :
    ∀ (r : ScanPathResponse) (br : ScanPathsResponse) (succ : SMap)
      (aw : List (ScanEvent × FsPath)),
      (r.path ≠ [] → respKey r = r.path) ∧
      (r.path = [] → respKey r = r.message) ∧
      (∀ k r2, buildResultMap br.results k = some r2 →
        r2 ∈ br.results ∧ respKey r2 = k) ∧
      ((tier1 br succ aw).2 =
        aw.filter (fun ep => !tier1Success (buildResultMap br.results ep.2))) ∧
      (∀ ep ∈ aw, buildResultMap br.results ep.2 = none →
        ep ∈ (tier1 br succ aw).2) := by
  intro r br succ aw
  refine ⟨fun h => by simp [respKey, h], fun h => by simp [respKey, h],
    fun k r2 h => buildResultMap_mem br.results k r2 h, tier1_snd br succ aw,
    fun ep hep h => ?_⟩
  rw [tier1_snd]
  exact List.mem_filter.mpr ⟨hep, by simp [h, tier1Success]⟩

/-- Witness for C8: a result with an empty path field is keyed by its
message; one with a non-empty path field by its path. -/
theorem claim8_witness :
    respKey badStatusResp = badStatusResp.message ∧
    respKey createdResp = createdResp.path :=
  ⟨(claim8_tier1_matching badStatusResp ⟨[]⟩ [] []).2.1 rfl,
    (claim8_tier1_matching createdResp ⟨[]⟩ [] []).1 (by decide)⟩

/-- C9: for both targeted-scan endpoints, a response whose body parsed is
returned as success whatever the HTTP status — in particular for non-2xx
statuses — and an unparseable body yields an error. -/
theorem claim9_parse_regardless_of_status :
    ∀ (st : Nat) (r : ScanPathResponse) (b : ScanPathsResponse),
      targeted_scan (some ⟨st, some r⟩) = .ok r ∧
      (is2xx st = false → targeted_scan (some ⟨st, some r⟩) = .ok r) ∧
      (∃ e, targeted_scan (some ⟨st, none⟩) = .error e) ∧
      targeted_scan_batch (some ⟨st, some b⟩) = .ok b ∧
      (∃ e, targeted_scan_batch (some ⟨st, none⟩) = .error e) := by
  intro st r b
  exact ⟨rfl, fun _ => rfl,
    ⟨"ScanPath failed with " ++ toString st, rfl⟩, rfl,
    ⟨"ScanPaths failed with " ++ toString st, rfl⟩⟩

/-- Witness for C9 at HTTP 404 (a non-2xx status whose parsed body is
still returned as success). -/
theorem claim9_witness :
    targeted_scan (some ⟨404, some badStatusResp⟩) = .ok badStatusResp ∧
    is2xx 404 = false :=
  ⟨(claim9_parse_regardless_of_status 404 badStatusResp ⟨[]⟩).2.1 rfl, rfl⟩

/-- C10: two events with equal rewritten paths always receive the same
Tier-1 classification, and when several batch results share a key, the one
appearing last in the response list decides the map entry for that key. -/
theorem claim10_last_wins :
    ∀ (br : ScanPathsResponse) (succ : SMap) (aw : List (ScanEvent × FsPath))
      (e1 e2 : ScanEvent) (p : FsPath) (xs ys : List ScanPathResponse)
      (r : ScanPathResponse),
      ((e1, p) ∈ aw → (e2, p) ∈ aw →
        ((e1, p) ∈ (tier1 br succ aw).2 ↔ (e2, p) ∈ (tier1 br succ aw).2)) ∧
      ((∀ r2 ∈ ys, respKey r2 ≠ respKey r) →
        buildResultMap (xs ++ r :: ys) (respKey r) = some r) := by
  intro br succ aw e1 e2 p xs ys r
  constructor
  · intro h1 h2
    rw [tier1_snd, List.mem_filter, List.mem_filter]
    constructor
    · intro hx
      exact ⟨h2, hx.2⟩
    · intro hx
      exact ⟨h1, hx.2⟩
  · exact buildResultMap_last xs r ys

/-- Witness for C10: two same-path events classify identically, and of two
results keyed by the same path the later (`Created`) one wins. -/
theorem claim10_witness :
    ((evA, (["m", "x"] : FsPath)) ∈
        (tier1 ⟨[badStatusResp]⟩ [] [(evA, ["m", "x"]), (⟨"e2", ["m", "x"]⟩, ["m", "x"])]).2 ↔
      ((⟨"e2", ["m", "x"]⟩ : ScanEvent), (["m", "x"] : FsPath)) ∈
        (tier1 ⟨[badStatusResp]⟩ [] [(evA, ["m", "x"]), (⟨"e2", ["m", "x"]⟩, ["m", "x"])]).2) ∧
    buildResultMap ([⟨"", "", "Failed", ["m", "x"], []⟩] ++ createdResp :: [])
      (respKey createdResp) = some createdResp :=
  ⟨(claim10_last_wins ⟨[badStatusResp]⟩ []
      [(evA, ["m", "x"]), (⟨"e2", ["m", "x"]⟩, ["m", "x"])] evA
      ⟨"e2", ["m", "x"]⟩ ["m", "x"] [] [] badStatusResp).1 (by simp) (by simp),
    (claim10_last_wins ⟨[badStatusResp]⟩ [] [] evA evA ["m", "x"]
      [⟨"", "", "Failed", ["m", "x"], []⟩] [] createdResp).2 (by simp)⟩

end Emby
